import Mathlib

/-!
Shallow embedding of the gcp-helper-functions repository (the Google Docs
table read/write helpers in `read_gdoc_helper_functions.py`,
`write_table_helper_functions.py` and their copies inside `gcp_client.py`),
together with theorems checking the specification's claims about them.

A Google Docs document is modelled by its JSON shape: a body holding a list
of structural elements; a structural element is a paragraph, a table or a
table-of-contents node, each carrying its `startIndex`.  Strings are Lean
`String`s (lists of characters); Python dictionaries of fixed shape become
structures; exceptions become `Except String`; `None` becomes `Option`.
-/

set_option autoImplicit false

/-- A `textRun` object: its `content` string, and whether the key
`suggestedDeletionIds` is present (the code only tests presence). -/
structure TextRun where
  content : String
  hasSuggestedDeletionIds : Bool
deriving DecidableEq

/-- A paragraph element: `startIndex` plus an optional `textRun`
(`element.get("textRun")` in Python returns `None` when the key is absent). -/
structure ParaElement where
  startIndex : Int
  textRun : Option TextRun
deriving DecidableEq

/-- A structural element of a document body (or of a table cell's `content`
list): paragraph, table or table-of-contents, each with its `startIndex`.
A table row is its `tableCells` list; a cell is `(startIndex, content)`. -/
inductive SElem where
  | paragraph (startIndex : Int) (elements : List ParaElement)
  | table (startIndex : Int) (columns : Nat)
      (tableRows : List (List (Int × List SElem)))
  | tableOfContents (startIndex : Int) (content : List SElem)

/-- `section["startIndex"]`: every structural element dict carries it. -/
def SElem.startIndex : SElem → Int
  | .paragraph i _ => i
  | .table i _ _ => i
  | .tableOfContents i _ => i

structure Body where
  content : List SElem

structure Doc where
  body : Body

/-- A pandas `DataFrame` of string cells, as the ordered column mapping it
is built from: a list of `(header, column values)` pairs. -/
structure Frame where
  cols : List (String × List String)
deriving DecidableEq

/-- `len(df)`: the number of rows of the frame (0 when there are no columns). -/
def Frame.nrows (f : Frame) : Nat :=
  match f.cols with
  | [] => 0
  | c :: _ => c.2.length

/-- `df.values.tolist()`: the rows of the frame in row-major order. -/
def Frame.valuesRows (f : Frame) : List (List String) :=
  (List.range f.nrows).map (fun i => f.cols.map (fun c => c.2.getD i ""))

/-- A batchUpdate request object, one of the three kinds the repository emits. -/
inductive Request where
  | insertTableRow (tableStartIndex : Int) (rowIndex : Nat) (insertBelow : Bool)
  | insertText (index : Int) (text : String)
  | replaceAllText (containsText : String) (matchCase : Bool) (replaceText : String)
deriving DecidableEq

/-- The `location.index` of an `insertText` request (0 for other kinds). -/
def Request.locIndex : Request → Int
  | .insertText i _ => i
  | _ => 0

instance {ε α : Type} [DecidableEq ε] [DecidableEq α] : DecidableEq (Except ε α) :=
  fun x y =>
  match x, y with
  | .ok a, .ok b =>
    if h : a = b then .isTrue (by rw [h])
    else .isFalse (by intro hh; cases hh; exact h rfl)
  | .error a, .error b =>
    if h : a = b then .isTrue (by rw [h])
    else .isFalse (by intro hh; cases hh; exact h rfl)
  | .ok _, .error _ => .isFalse (by intro h; cases h)
  | .error _, .ok _ => .isFalse (by intro h; cases h)

/-! ### `write_table_helper_functions.py` -/

/-- `insert_rows(table_body, df, insert_index)`: the Python body is
`[{...}] * len(df)` where the dict is an `insertTableRow` request with
`tableStartLocation.index = table_body["startIndex"]`,
`rowIndex = insert_index` and `insertBelow = True`. -/
def insert_rows (table_body : SElem) (df : Frame) (insert_index : Nat) :
    List Request :=
  List.replicate df.nrows
    (Request.insertTableRow table_body.startIndex insert_index true)

/-- `insert_text(table_body, df, first_row_index)`.  The Python code slices
`tableRows[first_row_index:]` (a copy), reverses the copy, and for each row
reverses `row["tableCells"]` **in place** (mutating `table_body`), collecting
`cell["startIndex"] + 1`; cell text is the flattened
`[df.columns] + df.values` reversed; the request list zips the two.  The
returned pair is `(request, table_body after mutation)`; a non-table
argument raises `KeyError`. -/
def insert_text (table_body : SElem) (df : Frame) (first_row_index : Nat) :
    Except String (List Request × SElem) :=
  match table_body with
  | .table si columns tableRows =>
    let rows := (tableRows.drop first_row_index).reverse
    let cell_index :=
      (rows.map (fun row => row.reverse.map (fun cell => cell.1 + 1))).flatten
    let cell_text :=
      (df.cols.map Prod.fst ++ df.valuesRows.flatten).reverse
    let request := List.zipWith (fun idx text => Request.insertText idx text)
      cell_index cell_text
    let mutatedRows := tableRows.take first_row_index ++
      (tableRows.drop first_row_index).map List.reverse
    .ok (request, .table si columns mutatedRows)
  | _ => .error "KeyError: table"

/-- `replace_title_placeholder(placeholder, new_name)`. -/
def replace_title_placeholder (placeholder : String) (new_name : String) :
    List Request :=
  [Request.replaceAllText placeholder true new_name]

/-! ### `read_gdoc_helper_functions.py`: the content tree walker -/

/-- The inner `read_paragraph_element` of `read_doc_text`: an element without
a `textRun` (or one marked with `suggestedDeletionIds`) contributes `""`,
otherwise its `content`. -/
def read_paragraph_element (element : ParaElement) : String :=
  match element.textRun with
  | none => ""
  | some tr => if tr.hasSuggestedDeletionIds then "" else tr.content

mutual

/-- The inner `read_structural_elements` of `read_doc_text`: concatenate, in
order, the text of paragraphs, of table cells (row-major, cell-major,
recursively) and of table-of-contents content. -/
def read_structural_elements : List SElem → String
  | [] => ""
  | v :: rest => readValue v ++ read_structural_elements rest

/-- One iteration of the `for value in elements` loop of
`read_structural_elements`. -/
def readValue : SElem → String
  | .paragraph _ elems => String.join (elems.map read_paragraph_element)
  | .table _ _ rows => readTableRows rows
  | .tableOfContents _ c => read_structural_elements c

/-- The `for row in value["table"]["tableRows"]` loop. -/
def readTableRows : List (List (Int × List SElem)) → String
  | [] => ""
  | r :: rest => readTableCells r ++ readTableRows rest

/-- The `for cell in row["tableCells"]` loop. -/
def readTableCells : List (Int × List SElem) → String
  | [] => ""
  | c :: rest => read_structural_elements c.2 ++ readTableCells rest

end

/-- `read_doc_text(doc)`: flatten the whole document body. -/
def read_doc_text (doc : Doc) : String :=
  read_structural_elements doc.body.content

/-! ### The table locator and its `str(section)` serialization -/

/-- Serialization of one character inside `str(section)` (Python escapes
control and non-ASCII characters in its `repr` of strings). -/
def pyReprChar (c : Char) : String :=
  if c = '\n' then "\\n"
  else if c = '\x0b' then "\\x0b"
  else if c = '\xa0' then "\\xa0"
  else if c = '﻿' then "\\ufeff"
  else if c = '​' then "\\u200b"
  else if c = '\\' then "\\\\"
  else ⟨[c]⟩

/-- Serialization of a string value inside `str(section)`. -/
def pyReprStr (s : String) : String :=
  "\"" ++ String.join (s.data.map pyReprChar) ++ "\""

/-- Serialization of a `textRun` dict. -/
def pyStrTextRun (tr : TextRun) : String :=
  "\x7b\"content\": " ++ pyReprStr tr.content ++
    (if tr.hasSuggestedDeletionIds then ", \"suggestedDeletionIds\": []" else "") ++
    "\x7d"

/-- Serialization of a paragraph element dict. -/
def pyStrParaElement (e : ParaElement) : String :=
  "\x7b\"startIndex\": " ++ toString e.startIndex ++
    (match e.textRun with
     | none => ""
     | some tr => ", \"textRun\": " ++ pyStrTextRun tr) ++
    "\x7d"

mutual

/-- `str(section)`: the textual dump of a structural element, as the Python
`table_id in str(section)` containment test sees it. -/
def pyStrElem : SElem → String
  | .paragraph i elems =>
      "\x7b\"startIndex\": " ++ toString i ++ ", \"paragraph\": \x7b\"elements\": [" ++
        String.intercalate ", " (elems.map pyStrParaElement) ++ "]\x7d\x7d"
  | .table i columns rows =>
      "\x7b\"startIndex\": " ++ toString i ++ ", \"table\": \x7b\"columns\": " ++
        toString columns ++ ", \"tableRows\": [" ++ pyStrRows rows ++ "]\x7d\x7d"
  | .tableOfContents i content =>
      "\x7b\"startIndex\": " ++ toString i ++
        ", \"tableOfContents\": \x7b\"content\": [" ++ pyStrList content ++ "]\x7d\x7d"

/-- Serialization of a list of structural elements. -/
def pyStrList : List SElem → String
  | [] => ""
  | v :: rest => pyStrElem v ++ (if rest.isEmpty then "" else ", ") ++ pyStrList rest

/-- Serialization of a `tableRows` list. -/
def pyStrRows : List (List (Int × List SElem)) → String
  | [] => ""
  | r :: rest => "\x7b\"tableCells\": [" ++ pyStrCells r ++ "]\x7d" ++
      (if rest.isEmpty then "" else ", ") ++ pyStrRows rest

/-- Serialization of a `tableCells` list. -/
def pyStrCells : List (Int × List SElem) → String
  | [] => ""
  | c :: rest => "\x7b\"startIndex\": " ++ toString c.1 ++ ", \"content\": [" ++
      pyStrList c.2 ++ "]\x7d" ++ (if rest.isEmpty then "" else ", ") ++ pyStrCells rest

end

/-- Python's `needle in hay` substring containment test. -/
def strContainsSub (hay needle : List Char) : Bool :=
  match hay with
  | [] => needle.isEmpty
  | _ :: rest => needle.isPrefixOf hay || strContainsSub rest needle

/-- `read_table_section(doc, table_id)`: the `for section in sections` loop
returns the first top-level section whose `str()` contains `table_id`;
falling through, the function prints a message (pure logging) and returns
`None`.  It never raises. -/
def read_table_section (doc : Doc) (table_id : String) : Option SElem :=
  doc.body.content.find? (fun s => strContainsSub (pyStrElem s).data table_id.data)

/-! ### The table extractor -/

/-- `" " * n`. -/
def spacesOf (n : Nat) : String :=
  ⟨List.replicate n ' '⟩

/-- The inner `read_textrun_element` of `read_table_textruns`: a fragment
marked `suggestedDeletionIds` resolves to spaces of the original length when
`preserve_format` and to `""` otherwise; unmarked fragments keep their
content.  `elem["textRun"]` raises `KeyError` when the key is absent. -/
def read_textrun_element (preserve_format : Bool) (elem : ParaElement) :
    Except String (Int × String) :=
  match elem.textRun with
  | none => .error "KeyError: textRun"
  | some tr =>
    if tr.hasSuggestedDeletionIds then
      .ok (elem.startIndex,
        if preserve_format then spacesOf tr.content.length else "")
    else
      .ok (elem.startIndex, tr.content)

/-- The inner `read_para`: resolve all elements, return the first element's
start index (`para_elems[0][0]`, `IndexError` on an empty list) with the
joined text. -/
def read_para (preserve_format : Bool) (elements : List ParaElement) :
    Except String (Int × String) := do
  let para_elems ← elements.mapM (read_textrun_element preserve_format)
  match para_elems with
  | [] => .error "IndexError: list index out of range"
  | e :: _ => .ok (e.1, String.join (para_elems.map Prod.snd))

/-- The inner `read_cell`: each entry of `cell["content"]` must be a
paragraph (`p["paragraph"]` raises `KeyError` otherwise); returns the first
paragraph's start index with the joined text. -/
def read_cell (preserve_format : Bool) (cell : Int × List SElem) :
    Except String (Int × String) := do
  let cell_elems ← cell.2.mapM (fun p =>
    match p with
    | .paragraph _ elems => read_para preserve_format elems
    | _ => (.error "KeyError: paragraph" : Except String (Int × String)))
  match cell_elems with
  | [] => .error "IndexError: list index out of range"
  | e :: _ => .ok (e.1, String.join (cell_elems.map Prod.snd))

/-- The inner `read_row`: read every cell of the row. -/
def read_row (preserve_format : Bool) (row : List (Int × List SElem)) :
    Except String (List (Int × String)) :=
  row.mapM (read_cell preserve_format)

/-- `read_table_textruns(doc, table_id, header_row_index, preserve_format)`:
locate the table (returning `(None, None)` on a miss), drop the first
`header_row_index` rows, read the remaining cells in row-major order and
return them with the declared column count. -/
def read_table_textruns (doc : Doc) (table_id : String) (header_row_index : Nat)
    (preserve_format : Bool) :
    Except String (Option (List (Int × String) × Nat)) :=
  match read_table_section doc table_id with
  | none => .ok none
  | some s =>
    match s with
    | .table _ columns tableRows => do
        let rows := tableRows.drop header_row_index
        let rowsRead ← rows.mapM (read_row preserve_format)
        .ok (some (rowsRead.flatten, columns))
    | _ => .error "KeyError: table"

/-! ### Reshaping the cell stream into a frame (`read_doc_table`) -/

/-- One pass of `[l[i:i + n] for i in range(0, len(l), n)]`:
`acc` is the current chunk (reversed) and `k` its remaining capacity. -/
def chunkGo {α : Type} (n : Nat) : List α → List α → Nat → List (List α)
  | acc, [], _ => if acc.isEmpty then [] else [acc.reverse]
  | acc, x :: xs, 0 => acc.reverse :: chunkGo n [x] xs (n - 1)
  | acc, x :: xs, k + 1 => chunkGo n (x :: acc) xs k

/-- `[l[i:i + n] for i in range(0, len(l), n)]` for a positive step `n`. -/
def pyChunk {α : Type} (n : Nat) (l : List α) : List (List α) :=
  chunkGo n [] l n

/-- `np.array(rows).T.tolist()`: numpy raises `ValueError` on a ragged list
of rows; on a rectangular one this is the transpose. -/
def npTranspose (rows : List (List String)) :
    Except String (List (List String)) :=
  match rows with
  | [] => .ok []
  | r :: rest =>
    if rest.all (fun x => x.length == r.length) then
      .ok ((List.range r.length).map
        (fun i => (r :: rest).map (fun row => row.getD i "")))
    else
      .error "ValueError: inhomogeneous shape"

/-- Insertion into a Python dict: an existing key keeps its position and gets
the new value, a new key is appended. -/
def dictInsert {α : Type} : List (String × α) → String → α → List (String × α)
  | [], k, v => [(k, v)]
  | (k', v') :: rest, k, v =>
    if k' = k then (k', v) :: rest else (k', v') :: dictInsert rest k v

/-- Fold a pair list into a Python dict, left to right. -/
def pyDictAux {α : Type} : List (String × α) → List (String × α) → List (String × α)
  | d, [] => d
  | d, (k, v) :: rest => pyDictAux (dictInsert d k v) rest

/-- `dict(pairs)`: build a dict from a pair list (later keys overwrite). -/
def pyDict {α : Type} (ps : List (String × α)) : List (String × α) :=
  pyDictAux [] ps

/-- The tail of `read_doc_table` after `read_table_textruns`: chunk the cell
text by the declared column count (`range` raises on step 0), take `rows[0]`
as headers (`IndexError` when there are none), transpose `rows[1:]` with
numpy and build `pd.DataFrame(dict(zip(headers, data)))`; `astype(str)` is
the identity on these all-string frames. -/
def organize_cells (cells : List (Int × String)) (column_n : Nat) :
    Except String Frame :=
  let cell_text := cells.map Prod.snd
  if column_n = 0 then .error "ValueError: range() arg 3 must not be zero"
  else
    match pyChunk column_n cell_text with
    | [] => .error "IndexError: list index out of range"
    | headers :: dataRows => do
        let data ← npTranspose dataRows
        .ok ⟨pyDict (headers.zip data)⟩

/-- `read_doc_table(doc, table_id, header_row_index, preserve_format)`:
extract the located table's cells and reshape them into a frame; a locator
miss returns `None`. -/
def read_doc_table (doc : Doc) (table_id : String) (header_row_index : Nat)
    (preserve_format : Bool) : Except String (Option Frame) := do
  match ← read_table_textruns doc table_id header_row_index preserve_format with
  | none => .ok none
  | some (cells, column_n) => do
      let f ← organize_cells cells column_n
      .ok (some f)

/-! ### The table normalizer (`clean_table`) -/

/-- Python `text.replace(a, "")` for a one-character pattern: every
occurrence of the character is removed. -/
def pyRemoveChar (a : Char) : List Char → List Char
  | [] => []
  | c :: rest => if c = a then pyRemoveChar a rest else c :: pyRemoveChar a rest

/-- Python `text.replace("  ", " ")`: one left-to-right non-overlapping pass
replacing each double space by a single space. -/
def collapseDoubleSpace : List Char → List Char
  | [] => []
  | [c] => [c]
  | c :: d :: rest =>
    if c = ' ' ∧ d = ' ' then ' ' :: collapseDoubleSpace rest
    else c :: collapseDoubleSpace (d :: rest)

/-- The characters Python's `str.strip()` removes (`str.isspace`). -/
def pyIsSpace (c : Char) : Bool :=
  [' ', '\t', '\n', '\r', '\x0b', '\x0c', '\x1c', '\x1d', '\x1e', '\x1f',
   '\x85', '\xa0', ' ', ' ', ' ', ' ', ' ',
   ' ', ' ', ' ', ' ', ' ', ' ', ' ',
   ' ', ' ', ' ', ' ', '　'].contains c

/-- Python `str.strip()`: drop leading and trailing whitespace. -/
def pyStrip (l : List Char) : List Char :=
  ((l.dropWhile pyIsSpace).reverse.dropWhile pyIsSpace).reverse

/-- The inner `strip_chars` of `clean_table`: remove `"\n"`, `"\x0b"`,
`"\xa0"`, `"﻿"`, `"​"`, collapse double spaces once, then strip. -/
def strip_chars (text : String) : String :=
  ⟨pyStrip (collapseDoubleSpace (pyRemoveChar '​' (pyRemoveChar '﻿'
    (pyRemoveChar '\xa0' (pyRemoveChar '\x0b' (pyRemoveChar '\n' text.data))))))⟩

/-- `clean_table(table)`: `strip_chars` over every column label and cell. -/
def clean_table (table : Frame) : Frame :=
  ⟨table.cols.map (fun p => (strip_chars p.1, p.2.map strip_chars))⟩

/-! ### Concrete documents and tables used in the theorems below -/

/-- The table of the spec's concrete scenario: column count 2, row 0 the
title row carrying the `"TBL_1"` marker (`header_row_index = 1` skips it),
then the header row `["H1", "H2"]` and the data row `["a\n", "b\xa0"]`. -/
def tableC5 : SElem := .table 1 2 [
  [(2, [.paragraph 2 [⟨3, some ⟨"TBL_1", false⟩⟩]]),
   (7, [.paragraph 7 [⟨8, some ⟨"\n", false⟩⟩]])],
  [(12, [.paragraph 12 [⟨13, some ⟨"H1", false⟩⟩]]),
   (17, [.paragraph 17 [⟨18, some ⟨"H2", false⟩⟩]])],
  [(22, [.paragraph 22 [⟨23, some ⟨"a\n", false⟩⟩]]),
   (26, [.paragraph 26 [⟨27, some ⟨"b\xa0", false⟩⟩]])] ]

/-- The document of the spec's concrete scenario: `tableC5` at top level. -/
def docC5 : Doc := ⟨⟨[tableC5]⟩⟩

/-- A table body with one data row of two cells (start indexes 5 and 9). -/
def tbC2 : SElem := .table 3 2 [[(5, []), (9, [])]]

/-- What `insert_text` leaves `tbC2` as: the row's `tableCells` reversed. -/
def tbC2mut : SElem := .table 3 2 [[(9, []), (5, [])]]

/-- A two-column frame with no data rows (cell text `"a"`, `"b"`). -/
def dfC2 : Frame := ⟨[("a", []), ("b", [])]⟩

/-- The `startIndex` of every table cell, row by row: a projection used to
compare table values. -/
def cellStartGrid : SElem → List (List Int)
  | .table _ _ rows => rows.map (fun r => r.map Prod.fst)
  | _ => []

/-! ### Helper lemmas -/

theorem zipWith_left_eq_take {α β : Type} :
    ∀ (a : List α) (b : List β), List.zipWith (fun x _ => x) a b = a.take b.length
  | [], _ => by simp
  | _ :: _, [] => by simp
  | x :: a, y :: b => by
    simp only [List.zipWith, List.length_cons, List.take_succ_cons]
    exact congrArg (x :: ·) (zipWith_left_eq_take a b)

theorem mem_zipWith_insertText :
    ∀ (a : List Int) (b : List String) (r : Request),
      r ∈ List.zipWith (fun idx text => Request.insertText idx text) a b →
      ∃ idx text, r = Request.insertText idx text
  | [], _, _, h => by simp at h
  | _ :: _, [], _, h => by simp at h
  | x :: a, y :: b, r, h => by
    simp only [List.zipWith] at h
    rcases List.mem_cons.mp h with h | h
    · exact ⟨x, y, h⟩
    · exact mem_zipWith_insertText a b r h

/-- The order in which `insert_text` collects cell start indexes (reversed
rows, each row's cells reversed) is the reverse of row-major document
order. -/
theorem flatten_reverse_rows_eq_reverse {α β : Type} (f : α → β)
    (l : List (List α)) :
    (l.reverse.map (fun row => (row.map f).reverse)).flatten =
      (l.flatten.map f).reverse := by
  rw [List.map_flatten, List.reverse_flatten]
  congr 1
  simp [List.map_reverse, List.map_map, Function.comp]

/-! ### The claims about the write-request builders -/

/-- C9: `insert_rows` returns `len(df)` identical `insertTableRow`
operations, each with `insertBelow = true`, `rowIndex = insert_index` and
`tableStartLocation.index` the table body's start index; in particular with
`tableStart = 100`, 3 data rows and `insertIndex = 1` it returns exactly 3
such operations. -/
theorem claim_C9_insert_rows_replicates :
    (∀ (table_body : SElem) (df : Frame) (insert_index : Nat),
      insert_rows table_body df insert_index =
        List.replicate df.nrows
          (Request.insertTableRow table_body.startIndex insert_index true) ∧
      (insert_rows table_body df insert_index).length = df.nrows) ∧
    insert_rows (.table 100 2 []) ⟨[("H", ["x", "y", "z"])]⟩ 1 =
      [Request.insertTableRow 100 1 true, Request.insertTableRow 100 1 true,
       Request.insertTableRow 100 1 true] := by
  exact ⟨fun tb df ii => ⟨rfl, by simp [insert_rows]⟩, by decide⟩

/-- C5: on `docC5` (marker `"TBL_1"`, column count 2, header row `H1, H2`
and data row `a\n, b\xa0` below the skipped title row), extraction with
`header_row_index = 1` followed by `clean_table` yields the grid mapping
`H1` to `["a"]` and `H2` to `["b"]`. -/
theorem claim_C5_concrete_extract_normalize :
    read_doc_table docC5 "TBL_1" 1 false =
      .ok (some ⟨[("H1", ["a\n"]), ("H2", ["b\xa0"])]⟩) ∧
    clean_table ⟨[("H1", ["a\n"]), ("H2", ["b\xa0"])]⟩ =
      ⟨[("H1", ["a"]), ("H2", ["b"])]⟩ := by
  exact ⟨by decide, by decide⟩

/-- C2 fails on the code: `insert_text` reverses each processed row's
`tableCells` in place, so it does **not** leave `table_body` unchanged, and
a second call on the same (now mutated) table body returns a different
operation list — here `[10, 6]` the first time and `[6, 10]` the second. -/
theorem claim_C2_insert_text_mutates :
    insert_text tbC2 dfC2 0 =
      .ok ([Request.insertText 10 "b", Request.insertText 6 "a"], tbC2mut) ∧
    cellStartGrid tbC2mut ≠ cellStartGrid tbC2 ∧
    (insert_text tbC2mut dfC2 0).map Prod.fst =
      .ok [Request.insertText 6 "b", Request.insertText 10 "a"] ∧
    (insert_text tbC2mut dfC2 0).map Prod.fst ≠
      (insert_text tbC2 dfC2 0).map Prod.fst := by
  exact ⟨rfl, by decide, by decide, by decide⟩

theorem map_locIndex_zipWith (a : List Int) (b : List String) :
    (List.zipWith (fun idx text => Request.insertText idx text) a b).map
      Request.locIndex = a.take b.length := by
  rw [List.map_zipWith]
  exact zipWith_left_eq_take a b

/-- C1: for a table whose cells' start indexes strictly increase in document
order, with at least 2 rows and 2 columns, and a frame whose total cell
count (headers plus data) matches the number of cells from
`first_row_index` on, `insert_text` emits exactly one `insertText` per
cell; in emitted order the `location.index` values are the cells'
`startIndex + 1` in reverse row-major order, hence strictly decreasing. -/
theorem claim_C1_insert_text_reverse_row_major
    (si : Int) (columns : Nat) (tableRows : List (List (Int × List SElem)))
    (df : Frame) (first_row_index : Nat)
    (hmono : List.Chain' (fun a b => a.1 < b.1) tableRows.flatten)
    (hrows : 2 ≤ tableRows.length) (hcols : 2 ≤ columns)
    (hcount : (df.cols.map Prod.fst ++ df.valuesRows.flatten).length =
      ((tableRows.drop first_row_index).flatten).length) :
    ∃ reqs mutated,
      insert_text (.table si columns tableRows) df first_row_index =
        .ok (reqs, mutated) ∧
      reqs.length = ((tableRows.drop first_row_index).flatten).length ∧
      reqs.map Request.locIndex =
        (((tableRows.drop first_row_index).flatten).map
          (fun cell => cell.1 + 1)).reverse ∧
      (∀ r ∈ reqs, ∃ idx text, r = Request.insertText idx text) ∧
      List.Chain' (fun a b => b < a) (reqs.map Request.locIndex) := by
  have hidx : ((tableRows.drop first_row_index).reverse.map
      (fun row => row.reverse.map (fun cell => cell.1 + 1))).flatten =
      (((tableRows.drop first_row_index).flatten).map
        (fun cell => cell.1 + 1)).reverse := by
    have h := flatten_reverse_rows_eq_reverse
      (fun cell : Int × List SElem => cell.1 + 1) (tableRows.drop first_row_index)
    simpa [List.map_reverse] using h
  have hmap : (List.zipWith (fun idx text => Request.insertText idx text)
      (((tableRows.drop first_row_index).reverse.map
        (fun row => row.reverse.map (fun cell => cell.1 + 1))).flatten)
      ((df.cols.map Prod.fst ++ df.valuesRows.flatten).reverse)).map
        Request.locIndex =
      (((tableRows.drop first_row_index).flatten).map
        (fun cell => cell.1 + 1)).reverse := by
    rw [map_locIndex_zipWith, hidx, List.length_reverse, hcount]
    exact List.take_of_length_le
      (le_of_eq (by rw [List.length_reverse, List.length_map]))
  have hchain0 : List.Chain' (fun (a b : Int × List SElem) => a.1 < b.1)
      ((tableRows.drop first_row_index).flatten) := by
    have h1 : tableRows.flatten =
        (tableRows.take first_row_index).flatten ++
          (tableRows.drop first_row_index).flatten := by
      rw [← List.flatten_append, List.take_append_drop]
    rw [h1] at hmono
    exact (List.chain'_append.mp hmono).2.1
  have hchain : List.Chain' (fun a b : Int => b < a)
      ((((tableRows.drop first_row_index).flatten).map
        (fun cell => cell.1 + 1)).reverse) := by
    rw [List.chain'_reverse]
    rw [List.chain'_map]
    exact hchain0.imp (fun a b h => by
      show a.1 + 1 < b.1 + 1
      omega)
  refine ⟨_, _, rfl, ?_, hmap, ?_, ?_⟩
  · simp only [List.length_zipWith, hidx, List.length_reverse, List.length_map,
      hcount]
    omega
  · intro r hr
    exact mem_zipWith_insertText _ _ r hr
  · rw [hmap]
    exact hchain

/-- A 2×2 table with strictly increasing cell start indexes. -/
def tableRowsC1 : List (List (Int × List SElem)) :=
  [[(1, []), (5, [])], [(9, []), (13, [])]]

/-- A frame with 2 headers and one data row: 4 cells in total. -/
def dfC1 : Frame := ⟨[("A", ["x"]), ("B", ["y"])]⟩

theorem claim_C1_witness :
    List.Chain' (fun (a b : Int × List SElem) => a.1 < b.1)
      tableRowsC1.flatten ∧
    2 ≤ tableRowsC1.length ∧ (2 : Nat) ≤ 2 ∧
    (dfC1.cols.map Prod.fst ++ dfC1.valuesRows.flatten).length =
      ((tableRowsC1.drop 0).flatten).length ∧
    (∃ reqs mutated,
      insert_text (.table 0 2 tableRowsC1) dfC1 0 = .ok (reqs, mutated) ∧
      reqs.length = ((tableRowsC1.drop 0).flatten).length ∧
      reqs.map Request.locIndex =
        (((tableRowsC1.drop 0).flatten).map (fun cell => cell.1 + 1)).reverse ∧
      (∀ r ∈ reqs, ∃ idx text, r = Request.insertText idx text) ∧
      List.Chain' (fun a b : Int => b < a) (reqs.map Request.locIndex)) :=
  ⟨by norm_num [tableRowsC1, List.chain'_cons], by decide, by decide, by decide,
    claim_C1_insert_text_reverse_row_major 0 2 tableRowsC1 dfC1 0
      (by norm_num [tableRowsC1, List.chain'_cons]) (by decide) (by decide)
      (by decide)⟩

/-- C4: a fragment marked as a suggested deletion resolves, under
`preserve_format = true`, to all-space text of the original length and,
under `preserve_format = false`, to the empty string; unmarked fragments
keep their original text. -/
theorem claim_C4_suggested_deletion_resolution
    (elem : ParaElement) (tr : TextRun) (h : elem.textRun = some tr) :
    (tr.hasSuggestedDeletionIds = true →
      (∃ s, read_textrun_element true elem = .ok (elem.startIndex, s) ∧
        s.length = tr.content.length ∧ ∀ c ∈ s.data, c = ' ') ∧
      read_textrun_element false elem = .ok (elem.startIndex, "")) ∧
    (tr.hasSuggestedDeletionIds = false → ∀ preserve_format,
      read_textrun_element preserve_format elem =
        .ok (elem.startIndex, tr.content)) := by
  constructor
  · intro hmark
    refine ⟨⟨spacesOf tr.content.length, ?_, ?_, ?_⟩, ?_⟩
    · simp [read_textrun_element, h, hmark]
    · show (List.replicate tr.content.length ' ').length = tr.content.length
      simp
    · intro c hc
      exact List.eq_of_mem_replicate (by simpa [spacesOf] using hc)
    · simp [read_textrun_element, h, hmark]
  · intro hmark pf
    simp [read_textrun_element, h, hmark]

theorem claim_C4_witness :
    (∃ s, read_textrun_element true ⟨7, some ⟨"abc", true⟩⟩ = .ok (7, s) ∧
      s.length = ("abc" : String).length ∧ ∀ c ∈ s.data, c = ' ') ∧
    read_textrun_element false ⟨7, some ⟨"abc", true⟩⟩ = .ok (7, "") ∧
    read_textrun_element true ⟨9, some ⟨"xy", false⟩⟩ = .ok (9, "xy") :=
  ⟨((claim_C4_suggested_deletion_resolution ⟨7, some ⟨"abc", true⟩⟩
      ⟨"abc", true⟩ rfl).1 rfl).1,
   ((claim_C4_suggested_deletion_resolution ⟨7, some ⟨"abc", true⟩⟩
      ⟨"abc", true⟩ rfl).1 rfl).2,
   (claim_C4_suggested_deletion_resolution ⟨9, some ⟨"xy", false⟩⟩
      ⟨"xy", false⟩ rfl).2 rfl true⟩

/-- C7: `read_doc_text` concatenates text in document order (append
homomorphism over the content list); fragments lacking a text payload or
marked as suggested deletions contribute the empty string, unmarked
fragments contribute their content, and a document with an empty content
list flattens to the empty string. -/
theorem claim_C7_read_doc_text_concatenation :
    (∀ xs ys : List SElem,
      read_structural_elements (xs ++ ys) =
        read_structural_elements xs ++ read_structural_elements ys) ∧
    (∀ element : ParaElement, element.textRun = none →
      read_paragraph_element element = "") ∧
    (∀ (element : ParaElement) (tr : TextRun), element.textRun = some tr →
      tr.hasSuggestedDeletionIds = true → read_paragraph_element element = "") ∧
    (∀ (element : ParaElement) (tr : TextRun), element.textRun = some tr →
      tr.hasSuggestedDeletionIds = false →
      read_paragraph_element element = tr.content) ∧
    (∀ doc : Doc, doc.body.content = [] → read_doc_text doc = "") := by
  refine ⟨?_, ?_, ?_, ?_, ?_⟩
  · intro xs ys
    induction xs with
    | nil => simp [read_structural_elements]
    | cons v rest ih =>
      show readValue v ++ read_structural_elements (rest ++ ys) =
        (readValue v ++ read_structural_elements rest) ++
          read_structural_elements ys
      rw [ih, String.append_assoc]
  · intro e he
    simp [read_paragraph_element, he]
  · intro e tr he hm
    simp [read_paragraph_element, he, hm]
  · intro e tr he hm
    simp [read_paragraph_element, he, hm]
  · intro doc hd
    simp [read_doc_text, hd, read_structural_elements]

theorem claim_C7_witness :
    read_structural_elements
        ([.paragraph 0 [⟨1, some ⟨"a", false⟩⟩]] ++
          [.paragraph 2 [⟨3, some ⟨"b", false⟩⟩]]) =
      read_structural_elements [.paragraph 0 [⟨1, some ⟨"a", false⟩⟩]] ++
        read_structural_elements [.paragraph 2 [⟨3, some ⟨"b", false⟩⟩]] ∧
    read_paragraph_element ⟨0, none⟩ = "" ∧
    read_paragraph_element ⟨0, some ⟨"zap", true⟩⟩ = "" ∧
    read_paragraph_element ⟨0, some ⟨"ok", false⟩⟩ = "ok" ∧
    read_doc_text ⟨⟨[]⟩⟩ = "" :=
  ⟨claim_C7_read_doc_text_concatenation.1 _ _,
   claim_C7_read_doc_text_concatenation.2.1 ⟨0, none⟩ rfl,
   claim_C7_read_doc_text_concatenation.2.2.1 ⟨0, some ⟨"zap", true⟩⟩
     ⟨"zap", true⟩ rfl rfl,
   claim_C7_read_doc_text_concatenation.2.2.2.1 ⟨0, some ⟨"ok", false⟩⟩
     ⟨"ok", false⟩ rfl rfl,
   claim_C7_read_doc_text_concatenation.2.2.2.2 ⟨⟨[]⟩⟩ rfl⟩

/-- Python's `in` test agrees with list-infix containment. -/
theorem strContainsSub_iff (hay needle : List Char) :
    strContainsSub hay needle = true ↔ needle <:+: hay := by
  induction hay with
  | nil =>
    simp only [strContainsSub, List.isEmpty_iff]
    constructor
    · rintro rfl; exact List.infix_rfl
    · intro h; simpa using h.sublist.length_le
  | cons c rest ih =>
    simp only [strContainsSub, Bool.or_eq_true, ih, List.infix_cons_iff,
      List.isPrefixOf_iff_prefix]

/-- `find?` returns the first element satisfying the predicate. -/
theorem find?_eq_some_first {α : Type} (p : α → Bool) :
    ∀ (l : List α) (a : α), l.find? p = some a →
      p a = true ∧ ∃ l1 l2, l = l1 ++ a :: l2 ∧ ∀ x ∈ l1, p x = false
  | [], a, h => by simp at h
  | x :: l, a, h => by
    by_cases hx : p x = true
    · rw [List.find?_cons_of_pos _ hx] at h
      cases h
      exact ⟨hx, [], l, rfl, by simp⟩
    · rw [List.find?_cons_of_neg _ (by simpa using hx)] at h
      obtain ⟨hp, l1, l2, rfl, hall⟩ := find?_eq_some_first p l a h
      refine ⟨hp, x :: l1, l2, rfl, ?_⟩
      intro y hy
      rcases List.mem_cons.mp hy with rfl | hy
      · simpa using hx
      · exact hall y hy

/-- C6: the locator scans only the top-level content sequence; a hit is the
first top-level node whose `str()` serialization contains the identifier as
a substring (every earlier node does not contain it), and when no top-level
node's serialization contains it the locator returns `none` — it is a total
function and never raises. -/
theorem claim_C6_read_table_section_first_match (doc : Doc) (table_id : String) :
    (read_table_section doc table_id = none ↔
      ∀ s ∈ doc.body.content, ¬ table_id.data <:+: (pyStrElem s).data) ∧
    (∀ s, read_table_section doc table_id = some s →
      table_id.data <:+: (pyStrElem s).data ∧
      ∃ l1 l2, doc.body.content = l1 ++ s :: l2 ∧
        ∀ x ∈ l1, ¬ table_id.data <:+: (pyStrElem x).data) := by
  have hpred : ∀ s : SElem,
      (strContainsSub (pyStrElem s).data table_id.data = true) ↔
        table_id.data <:+: (pyStrElem s).data :=
    fun s => strContainsSub_iff _ _
  constructor
  · rw [read_table_section, List.find?_eq_none]
    constructor
    · intro h s hs hinf
      exact h s hs ((hpred s).mpr hinf)
    · intro h s hs hp
      exact h s hs ((hpred s).mp hp)
  · intro s hs
    obtain ⟨hp, l1, l2, heq, hall⟩ := find?_eq_some_first _ _ _ hs
    refine ⟨(hpred s).mp hp, l1, l2, heq, ?_⟩
    intro x hx hinf
    have h1 := (hpred x).mpr hinf
    rw [hall x hx] at h1
    exact Bool.noConfusion h1

/-- A document with no occurrence of the identifier `"NOPE"` anywhere. -/
def docC6miss : Doc := ⟨⟨[.paragraph 0 [⟨1, some ⟨"hello", false⟩⟩]]⟩⟩

theorem claim_C6_witness :
    read_table_section docC5 "TBL_1" = some tableC5 ∧
    "TBL_1".data <:+: (pyStrElem tableC5).data ∧
    read_table_section docC6miss "NOPE" = none ∧
    (∀ s ∈ docC6miss.body.content, ¬ "NOPE".data <:+: (pyStrElem s).data) :=
  have h1 : read_table_section docC5 "TBL_1" = some tableC5 := by rfl
  have h2 : read_table_section docC6miss "NOPE" = none := by rfl
  ⟨h1, ((claim_C6_read_table_section_first_match docC5 "TBL_1").2 tableC5 h1).1,
   h2, (claim_C6_read_table_section_first_match docC6miss "NOPE").1.mp h2⟩

/-! ### Normalizer lemmas -/

theorem mem_pyRemoveChar (a : Char) :
    ∀ (l : List Char) (x : Char), x ∈ pyRemoveChar a l ↔ x ∈ l ∧ x ≠ a
  | [], x => by simp [pyRemoveChar]
  | c :: l, x => by
    by_cases hc : c = a
    · rw [show pyRemoveChar a (c :: l) = pyRemoveChar a l by
        simp [pyRemoveChar, hc]]
      rw [mem_pyRemoveChar a l x]
      subst hc
      simp only [List.mem_cons]
      constructor
      · rintro ⟨hx, hxa⟩
        exact ⟨Or.inr hx, hxa⟩
      · rintro ⟨rfl | hx, hxa⟩
        · exact absurd rfl hxa
        · exact ⟨hx, hxa⟩
    · rw [show pyRemoveChar a (c :: l) = c :: pyRemoveChar a l by
        simp [pyRemoveChar, hc]]
      simp only [List.mem_cons, mem_pyRemoveChar a l x]
      constructor
      · rintro (rfl | ⟨hx, hxa⟩)
        · exact ⟨Or.inl rfl, hc⟩
        · exact ⟨Or.inr hx, hxa⟩
      · rintro ⟨rfl | hx, hxa⟩
        · exact Or.inl rfl
        · exact Or.inr ⟨hx, hxa⟩

theorem mem_collapseDoubleSpace :
    ∀ (l : List Char) (x : Char), x ∈ collapseDoubleSpace l → x ∈ l ∨ x = ' '
  | [], x, h => by simp [collapseDoubleSpace] at h
  | [c], x, h => by
    simp only [collapseDoubleSpace] at h
    exact Or.inl h
  | c :: d :: rest, x, h => by
    simp only [collapseDoubleSpace] at h
    by_cases hsp : c = ' ' ∧ d = ' '
    · rw [if_pos hsp] at h
      rcases List.mem_cons.mp h with rfl | h
      · exact Or.inr rfl
      · rcases mem_collapseDoubleSpace rest x h with h | h
        · exact Or.inl (by simp [h])
        · exact Or.inr h
    · rw [if_neg hsp] at h
      rcases List.mem_cons.mp h with rfl | h
      · exact Or.inl (by simp)
      · rcases mem_collapseDoubleSpace (d :: rest) x h with h | h
        · exact Or.inl (by simpa using Or.inr (List.mem_cons.mp h))
        · exact Or.inr h

theorem mem_pyStrip (l : List Char) (x : Char) (h : x ∈ pyStrip l) : x ∈ l := by
  rw [pyStrip, List.mem_reverse] at h
  have h1 := (List.dropWhile_sublist (l := (l.dropWhile pyIsSpace).reverse)
    (p := pyIsSpace)).mem h
  rw [List.mem_reverse] at h1
  exact (List.dropWhile_sublist (l := l) (p := pyIsSpace)).mem h1

theorem head?_dropWhile_false {α : Type} (p : α → Bool) :
    ∀ (l : List α) (c : α), (l.dropWhile p).head? = some c → p c = false
  | [], c, h => by simp [List.dropWhile] at h
  | x :: l, c, h => by
    by_cases hx : p x = true
    · rw [List.dropWhile_cons_of_pos hx] at h
      exact head?_dropWhile_false p l c h
    · rw [List.dropWhile_cons_of_neg (by simpa using hx)] at h
      cases h
      simpa using hx

theorem getLast?_dropWhile_of_ne_nil {α : Type} (p : α → Bool) (l : List α)
    (h : l.dropWhile p ≠ []) : (l.dropWhile p).getLast? = l.getLast? := by
  obtain ⟨t, ht⟩ := List.dropWhile_suffix (l := l) p
  conv_rhs => rw [← ht]
  rw [List.getLast?_append]
  cases hy : (l.dropWhile p).getLast? with
  | none => exact absurd (List.getLast?_eq_none_iff.mp hy) h
  | some v => rfl

theorem pyStrip_getLast (l : List Char) (c : Char)
    (h : (pyStrip l).getLast? = some c) : pyIsSpace c = false := by
  rw [pyStrip, List.getLast?_reverse] at h
  exact head?_dropWhile_false pyIsSpace _ c h

theorem pyStrip_head (l : List Char) (c : Char)
    (h : (pyStrip l).head? = some c) : pyIsSpace c = false := by
  rw [pyStrip, List.head?_reverse] at h
  have hy : (l.dropWhile pyIsSpace).reverse.dropWhile pyIsSpace ≠ [] := by
    intro hnil
    rw [hnil] at h
    simp at h
  rw [getLast?_dropWhile_of_ne_nil pyIsSpace _ hy, List.getLast?_reverse] at h
  exact head?_dropWhile_false pyIsSpace _ c h

/-- C8: `clean_table` applies `strip_chars` to every header value and every
cell value; the `strip_chars` output never contains a newline, vertical
tab, non-breaking space, byte-order mark or zero-width space, and it has no
leading or trailing whitespace. -/
theorem claim_C8_clean_table_normalizes :
    (∀ f : Frame, clean_table f =
      ⟨f.cols.map (fun p => (strip_chars p.1, p.2.map strip_chars))⟩) ∧
    (∀ s : String,
      '\n' ∉ (strip_chars s).data ∧ '\x0b' ∉ (strip_chars s).data ∧
      '\xa0' ∉ (strip_chars s).data ∧ '﻿' ∉ (strip_chars s).data ∧
      '​' ∉ (strip_chars s).data ∧
      (∀ c, (strip_chars s).data.head? = some c → pyIsSpace c = false) ∧
      (∀ c, (strip_chars s).data.getLast? = some c → pyIsSpace c = false)) := by
  constructor
  · intro f
    rfl
  · intro s
    have hmem : ∀ x, x ∈ (strip_chars s).data →
        x ∈ pyRemoveChar '​' (pyRemoveChar '﻿' (pyRemoveChar '\xa0'
          (pyRemoveChar '\x0b' (pyRemoveChar '\n' s.data)))) ∨ x = ' ' := by
      intro x hx
      exact mem_collapseDoubleSpace _ x (mem_pyStrip _ x hx)
    refine ⟨?_, ?_, ?_, ?_, ?_, ?_, ?_⟩
    · intro h
      rcases hmem _ h with h5 | h5
      · have h4 := ((mem_pyRemoveChar _ _ _).mp h5).1
        have h3 := ((mem_pyRemoveChar _ _ _).mp h4).1
        have h2 := ((mem_pyRemoveChar _ _ _).mp h3).1
        have h1 := ((mem_pyRemoveChar _ _ _).mp h2).1
        exact ((mem_pyRemoveChar _ _ _).mp h1).2 rfl
      · exact absurd h5 (by decide)
    · intro h
      rcases hmem _ h with h5 | h5
      · have h4 := ((mem_pyRemoveChar _ _ _).mp h5).1
        have h3 := ((mem_pyRemoveChar _ _ _).mp h4).1
        have h2 := ((mem_pyRemoveChar _ _ _).mp h3).1
        exact ((mem_pyRemoveChar _ _ _).mp h2).2 rfl
      · exact absurd h5 (by decide)
    · intro h
      rcases hmem _ h with h5 | h5
      · have h4 := ((mem_pyRemoveChar _ _ _).mp h5).1
        have h3 := ((mem_pyRemoveChar _ _ _).mp h4).1
        exact ((mem_pyRemoveChar _ _ _).mp h3).2 rfl
      · exact absurd h5 (by decide)
    · intro h
      rcases hmem _ h with h5 | h5
      · have h4 := ((mem_pyRemoveChar _ _ _).mp h5).1
        exact ((mem_pyRemoveChar _ _ _).mp h4).2 rfl
      · exact absurd h5 (by decide)
    · intro h
      rcases hmem _ h with h5 | h5
      · exact ((mem_pyRemoveChar _ _ _).mp h5).2 rfl
      · exact absurd h5 (by decide)
    · intro c hc
      exact pyStrip_head _ c hc
    · intro c hc
      exact pyStrip_getLast _ c hc

theorem claim_C8_witness :
    (strip_chars " ​a  b﻿ ").data.contains '​' = false ∧
    (strip_chars " ​a  b﻿ ").data.contains '﻿' = false ∧
    (strip_chars " ​a  b﻿ ").data.head? = some 'a' ∧
    pyIsSpace 'a' = false ∧
    (strip_chars " ​a  b﻿ ").data.getLast? = some 'b' ∧
    pyIsSpace 'b' = false :=
  ⟨by decide, by decide, by decide,
   (claim_C8_clean_table_normalizes.2 " ​a  b﻿ ").2.2.2.2.2.1 'a'
     (by decide),
   by decide,
   (claim_C8_clean_table_normalizes.2 " ​a  b﻿ ").2.2.2.2.2.2 'b'
     (by decide)⟩

/-! ### Chunking lemmas, for the reshape claims -/

theorem chunkGo_eq {α : Type} (n : Nat) (hn : 0 < n) :
    ∀ (l acc : List α) (k : Nat), acc ≠ [] ∨ l ≠ [] → k + acc.length = n →
      chunkGo n acc l k = (acc.reverse ++ l.take k) :: pyChunk n (l.drop k)
  | [], acc, k, hne, _ => by
    have hacc : acc ≠ [] := by
      rcases hne with h | h
      · exact h
      · exact absurd rfl h
    simp [chunkGo, pyChunk, List.isEmpty_iff, hacc]
  | x :: xs, acc, 0, hne, hinv => by
    have hacc : acc.length = n := by simpa using hinv
    rw [show chunkGo n acc (x :: xs) 0 =
      acc.reverse :: chunkGo n [x] xs (n - 1) from rfl]
    rw [List.take_zero, List.drop_zero, List.append_nil]
    congr 1
    rw [pyChunk]
    cases n with
    | zero => omega
    | succ m =>
      rw [show chunkGo (m + 1) ([] : List α) (x :: xs) (m + 1) =
        chunkGo (m + 1) [x] xs m from rfl]
      rfl
  | x :: xs, acc, k + 1, hne, hinv => by
    rw [show chunkGo n acc (x :: xs) (k + 1) =
      chunkGo n (x :: acc) xs k from rfl]
    rw [chunkGo_eq n hn xs (x :: acc) k (Or.inl (by simp))
      (by simp at hinv ⊢; omega)]
    simp [List.reverse_cons, List.append_assoc]

theorem pyChunk_cons {α : Type} (n : Nat) (hn : 0 < n) (l : List α)
    (hl : l ≠ []) : pyChunk n l = l.take n :: pyChunk n (l.drop n) := by
  rw [pyChunk, chunkGo_eq n hn l [] n (Or.inr hl) (by simp)]
  simp

theorem pyChunk_exists_short {α : Type} (n : Nat) (hn : 0 < n) :
    ∀ (fuel : Nat) (l : List α), l.length ≤ fuel → l ≠ [] →
      ¬ n ∣ l.length → ∃ chunk ∈ pyChunk n l, chunk.length ≠ n
  | 0, l, hf, hl, _ => by
    cases l with
    | nil => exact absurd rfl hl
    | cons x xs => simp at hf
  | fuel + 1, l, hf, hl, hnd => by
    rw [pyChunk_cons n hn l hl]
    by_cases hle : l.length ≤ n
    · have hlt : l.length < n :=
        lt_of_le_of_ne hle (fun h => hnd (by rw [h]))
      refine ⟨l.take n, List.mem_cons_self _ _, ?_⟩
      rw [List.length_take]
      omega
    · push_neg at hle
      have hdrop_ne : l.drop n ≠ [] := by
        intro h
        have h2 := congrArg List.length h
        rw [List.length_drop] at h2
        simp at h2
        omega
      have hndd : ¬ n ∣ (l.drop n).length := by
        rw [List.length_drop]
        intro hdvd
        apply hnd
        have h3 : l.length = (l.length - n) + n := by omega
        rw [h3]
        exact Nat.dvd_add hdvd dvd_rfl
      obtain ⟨c, hc, hcn⟩ := pyChunk_exists_short n hn fuel (l.drop n)
        (by rw [List.length_drop]; omega) hdrop_ne hndd
      exact ⟨c, List.mem_cons_of_mem _ hc, hcn⟩

/-- C3 amended: with a cell count that is no multiple of the declared column
count **and exceeds twice the column count**, the reshape step of
`read_doc_table` produces a ragged `rows[1:]` and `np.array` raises, so
`organize_cells` returns a hard error. -/
theorem claim_C3_amended_reshape_error
    (cells : List (Int × String)) (column_n : Nat) (hc : 0 < column_n)
    (hnd : ¬ column_n ∣ cells.length) (hbig : 2 * column_n < cells.length) :
    ∃ msg, organize_cells cells column_n = .error msg := by
  have hlen : (cells.map Prod.snd).length = cells.length := by simp
  have hne : cells.map Prod.snd ≠ [] := by
    intro h
    rw [h] at hlen
    simp at hlen
    omega
  have h1 := pyChunk_cons column_n hc (cells.map Prod.snd) hne
  have hdlen : ((cells.map Prod.snd).drop column_n).length =
      cells.length - column_n := by
    rw [List.length_drop, hlen]
  have hdne : (cells.map Prod.snd).drop column_n ≠ [] := by
    intro h
    rw [h] at hdlen
    simp at hdlen
    omega
  have h2 := pyChunk_cons column_n hc ((cells.map Prod.snd).drop column_n) hdne
  have hhead_len : (((cells.map Prod.snd).drop column_n).take column_n).length
      = column_n := by
    rw [List.length_take, hdlen]
    omega
  have hddlen : (((cells.map Prod.snd).drop column_n).drop column_n).length =
      cells.length - 2 * column_n := by
    rw [List.length_drop, hdlen]
    omega
  have hddne : ((cells.map Prod.snd).drop column_n).drop column_n ≠ [] := by
    intro h
    rw [h] at hddlen
    simp at hddlen
    omega
  have hnd2 : ¬ column_n ∣
      (((cells.map Prod.snd).drop column_n).drop column_n).length := by
    rw [hddlen]
    intro hdvd
    apply hnd
    have h3 : cells.length = (cells.length - 2 * column_n) + 2 * column_n := by
      omega
    rw [h3]
    exact Nat.dvd_add hdvd ⟨2, by omega⟩
  obtain ⟨chunk, hmem, hcn⟩ := pyChunk_exists_short column_n hc
    (((cells.map Prod.snd).drop column_n).drop column_n).length _ le_rfl
    hddne hnd2
  have htr : npTranspose (pyChunk column_n
      ((cells.map Prod.snd).drop column_n)) =
      .error "ValueError: inhomogeneous shape" := by
    rw [h2, npTranspose]
    rw [if_neg ?hall]
    case hall =>
      intro hall
      have := List.all_eq_true.mp hall chunk hmem
      rw [beq_iff_eq] at this
      rw [hhead_len] at this
      exact hcn this
  refine ⟨"ValueError: inhomogeneous shape", ?_⟩
  have hred : organize_cells cells column_n = (do
      let data ← npTranspose (pyChunk column_n
        ((cells.map Prod.snd).drop column_n))
      Except.ok (⟨pyDict (((cells.map Prod.snd).take column_n).zip data)⟩ :
        Frame)) := by
    rw [organize_cells]
    simp only [if_neg (by omega : ¬ column_n = 0)]
    rw [h1]
  rw [hred, htr]
  rfl

/-- A malformed table: declared column count 2 but 3 cells in total. -/
def docC3 : Doc := ⟨⟨[ .table 1 2 [
  [(2, [.paragraph 2 [⟨3, some ⟨"A", false⟩⟩]]),
   (7, [.paragraph 7 [⟨8, some ⟨"B", false⟩⟩]])],
  [(12, [.paragraph 12 [⟨13, some ⟨"x", false⟩⟩]])] ] ]⟩⟩

/-- C3 as stated is false: on `docC3` (3 resolved cells, declared column
count 2, no multiple), `read_doc_table` does **not** raise; it silently
returns a one-column grid, dropping the header `"B"`. -/
theorem claim_C3_counterexample_silent_truncation :
    read_doc_table docC3 "A" 0 false = .ok (some ⟨[("A", ["x"])]⟩) ∧
    ¬ (2 : Nat) ∣ 3 := by
  exact ⟨by decide, by decide⟩

theorem claim_C3_witness :
    (0 : Nat) < 2 ∧ ¬ (2 : Nat) ∣ 5 ∧ 2 * 2 < 5 ∧
    ∃ msg, organize_cells
      [(1, "a"), (2, "b"), (3, "c"), (4, "d"), (5, "e")] 2 = .error msg :=
  ⟨by decide, by decide, by decide,
   claim_C3_amended_reshape_error
     [(1, "a"), (2, "b"), (3, "c"), (4, "d"), (5, "e")] 2
     (by decide) (by decide) (by decide)⟩

/-! ### Python dict lemmas, for the duplicate-header claim -/

theorem lookup_dictInsert {α : Type} (k q : String) (v : α) :
    ∀ d : List (String × α), (dictInsert d k v).lookup q =
      if q = k then some v else d.lookup q
  | [] => by
    simp only [dictInsert, List.lookup]
    by_cases hq : q = k
    · rw [if_pos hq, show (q == k) = true from beq_iff_eq.mpr hq]
    · rw [if_neg hq, show (q == k) = false from beq_eq_false_iff_ne.mpr hq]
  | (k', v') :: d => by
    by_cases hk : k' = k
    · subst hk
      simp only [dictInsert, if_pos rfl, List.lookup]
      by_cases hq : q = k'
      · rw [if_pos hq, show (q == k') = true from beq_iff_eq.mpr hq]
      · rw [if_neg hq, show (q == k') = false from beq_eq_false_iff_ne.mpr hq]
    · simp only [dictInsert, if_neg hk, List.lookup]
      by_cases hq : q = k'
      · have hqk : ¬ q = k := fun h => hk (hq ▸ h)
        rw [show (q == k') = true from beq_iff_eq.mpr hq, if_neg hqk]
      · rw [show (q == k') = false from beq_eq_false_iff_ne.mpr hq]
        rw [lookup_dictInsert k q v d]

theorem lookup_pyDictAux {α : Type} (q : String) :
    ∀ (ps d : List (String × α)),
      (pyDictAux d ps).lookup q = (ps.reverse.lookup q).or (d.lookup q)
  | [], d => by simp [pyDictAux]
  | (k, v) :: ps, d => by
    rw [show pyDictAux d ((k, v) :: ps) = pyDictAux (dictInsert d k v) ps
      from rfl]
    rw [lookup_pyDictAux q ps (dictInsert d k v)]
    rw [lookup_dictInsert k q v d]
    rw [List.reverse_cons, List.lookup_append]
    by_cases hq : q = k
    · rw [show List.lookup q [(k, v)] = some v by
        simp [List.lookup, show (q == k) = true from beq_iff_eq.mpr hq]]
      rw [if_pos hq]
      cases ps.reverse.lookup q <;> simp [Option.or]
    · rw [show List.lookup q [(k, v)] = none by
        simp [List.lookup,
          show (q == k) = false from beq_eq_false_iff_ne.mpr hq]]
      rw [if_neg hq]
      cases ps.reverse.lookup q <;> simp [Option.or]

theorem map_fst_dictInsert {α : Type} (k : String) (v : α) :
    ∀ d : List (String × α), (dictInsert d k v).map Prod.fst =
      if k ∈ d.map Prod.fst then d.map Prod.fst else d.map Prod.fst ++ [k]
  | [] => by simp [dictInsert]
  | (k', v') :: d => by
    by_cases hk : k' = k
    · subst hk
      simp [dictInsert]
    · simp only [dictInsert, if_neg hk, List.map_cons, map_fst_dictInsert k v d]
      by_cases hmem : k ∈ d.map Prod.fst
      · rw [if_pos hmem, if_pos (List.mem_cons_of_mem _ hmem)]
      · rw [if_neg hmem, if_neg (by
          intro h
          rcases List.mem_cons.mp h with h | h
          · exact hk h.symm
          · exact hmem h)]
        simp

theorem mem_keys_pyDictAux {α : Type} (q : String) :
    ∀ (ps d : List (String × α)),
      q ∈ (pyDictAux d ps).map Prod.fst ↔
        q ∈ d.map Prod.fst ∨ q ∈ ps.map Prod.fst
  | [], d => by simp [pyDictAux]
  | (k, v) :: ps, d => by
    rw [show pyDictAux d ((k, v) :: ps) = pyDictAux (dictInsert d k v) ps
      from rfl]
    rw [mem_keys_pyDictAux q ps (dictInsert d k v)]
    rw [map_fst_dictInsert]
    by_cases hmem : k ∈ d.map Prod.fst
    · rw [if_pos hmem]
      simp only [List.map_cons, List.mem_cons]
      constructor
      · rintro (h | h)
        · exact Or.inl h
        · exact Or.inr (Or.inr h)
      · rintro (h | rfl | h)
        · exact Or.inl h
        · exact Or.inl hmem
        · exact Or.inr h
    · rw [if_neg hmem]
      simp only [List.mem_append, List.mem_singleton, List.map_cons,
        List.mem_cons]
      tauto

theorem nodup_keys_dictInsert {α : Type} (k : String) (v : α)
    (d : List (String × α)) (hd : (d.map Prod.fst).Nodup) :
    ((dictInsert d k v).map Prod.fst).Nodup := by
  rw [map_fst_dictInsert]
  by_cases hmem : k ∈ d.map Prod.fst
  · rwa [if_pos hmem]
  · rw [if_neg hmem]
    exact hd.append (List.nodup_singleton k) (by simpa using hmem)

theorem nodup_keys_pyDictAux {α : Type} :
    ∀ (ps d : List (String × α)), (d.map Prod.fst).Nodup →
      ((pyDictAux d ps).map Prod.fst).Nodup
  | [], _, hd => hd
  | (k, v) :: ps, d, hd =>
    nodup_keys_pyDictAux ps (dictInsert d k v) (nodup_keys_dictInsert k v d hd)

/-- C10: `read_doc_table` keys the grid by header value via
`dict(zip(headers, data))`, so duplicate headers collapse: the resulting
columns carry pairwise distinct header names, one per distinct zipped
header, there are fewer columns than the declared column count, and the
value stored under a duplicated header is the one of its **last**
occurrence (lookup agrees with lookup over the reversed pair list). -/
theorem claim_C10_duplicate_headers_collapse
    (cells : List (Int × String)) (column_n : Nat) (f : Frame)
    (headers : List String) (dataRows : List (List String))
    (hchunk : pyChunk column_n (cells.map Prod.snd) = headers :: dataRows)
    (hwidth : headers.length = column_n)
    (hdup : ¬ headers.Nodup)
    (hok : organize_cells cells column_n = .ok f) :
    ∃ data, npTranspose dataRows = .ok data ∧
      f.cols = pyDict (headers.zip data) ∧
      (f.cols.map Prod.fst).Nodup ∧
      (∀ q, q ∈ f.cols.map Prod.fst ↔ q ∈ (headers.zip data).map Prod.fst) ∧
      f.cols.length < column_n ∧
      (∀ q, f.cols.lookup q = ((headers.zip data).reverse).lookup q) := by
  have hc : ¬ column_n = 0 := by
    intro h
    rw [organize_cells, if_pos h] at hok
    cases hok
  have hred : organize_cells cells column_n = (do
      let data ← npTranspose dataRows
      Except.ok (⟨pyDict (headers.zip data)⟩ : Frame)) := by
    rw [organize_cells]
    simp only [if_neg hc]
    rw [hchunk]
  rw [hred] at hok
  cases hnp : npTranspose dataRows with
  | error e =>
    rw [hnp] at hok
    cases hok
  | ok data =>
    rw [hnp] at hok
    simp only [bind, Except.bind] at hok
    have hf : f.cols = pyDict (headers.zip data) := by
      cases hok
      rfl
    have hnodup : ((pyDict (headers.zip data)).map Prod.fst).Nodup :=
      nodup_keys_pyDictAux _ [] (by simp)
    have hmemkeys : ∀ q, q ∈ (pyDict (headers.zip data)).map Prod.fst ↔
        q ∈ (headers.zip data).map Prod.fst := by
      intro q
      rw [pyDict, mem_keys_pyDictAux q (headers.zip data) []]
      simp
    have hsub : ∀ q, q ∈ (pyDict (headers.zip data)).map Prod.fst →
        q ∈ headers := by
      intro q hq
      obtain ⟨⟨a, b⟩, hab, rfl⟩ := List.mem_map.mp ((hmemkeys q).mp hq)
      exact (List.of_mem_zip hab).1
    have hlen : ((pyDict (headers.zip data)).map Prod.fst).length <
        headers.length := by
      have h1 : ((pyDict (headers.zip data)).map Prod.fst).length =
          ((pyDict (headers.zip data)).map Prod.fst).toFinset.card := by
        rw [List.card_toFinset, List.dedup_eq_self.mpr hnodup]
      have h2 : ((pyDict (headers.zip data)).map Prod.fst).toFinset ⊆
          headers.toFinset := by
        intro q hq
        rw [List.mem_toFinset] at hq ⊢
        exact hsub q hq
      have h3 := Finset.card_le_card h2
      have h4 : headers.toFinset.card < headers.length := by
        rw [List.card_toFinset]
        rcases lt_or_eq_of_le (List.Sublist.length_le
          (List.dedup_sublist headers)) with h | h
        · exact h
        · exact absurd
            (List.dedup_eq_self.mp ((List.dedup_sublist headers).eq_of_length h))
            hdup
      omega
    refine ⟨data, rfl, hf, ?_, ?_, ?_, ?_⟩
    · rw [hf]
      exact hnodup
    · intro q
      rw [hf]
      exact hmemkeys q
    · rw [hf]
      rw [List.length_map] at hlen
      omega
    · intro q
      rw [hf, pyDict, lookup_pyDictAux q (headers.zip data) []]
      cases (headers.zip data).reverse.lookup q <;> rfl

theorem claim_C10_witness :
    pyChunk 2 ((([(1, "H"), (2, "H"), (3, "1"), (4, "2")]) :
        List (Int × String)).map Prod.snd) = [["H", "H"], ["1", "2"]] ∧
    ¬ (["H", "H"] : List String).Nodup ∧
    organize_cells [(1, "H"), (2, "H"), (3, "1"), (4, "2")] 2 =
      .ok ⟨[("H", ["2"])]⟩ ∧
    (⟨[("H", ["2"])]⟩ : Frame).cols.length < 2 ∧
    (⟨[("H", ["2"])]⟩ : Frame).cols.lookup "H" = some ["2"] := by
  have hdup : ¬ (["H", "H"] : List String).Nodup := by simp
  obtain ⟨data, hnp, hcols, hnodup2, hmem, hlt, hlk⟩ :=
    claim_C10_duplicate_headers_collapse
      [(1, "H"), (2, "H"), (3, "1"), (4, "2")] 2 ⟨[("H", ["2"])]⟩
      ["H", "H"] [["1", "2"]] (by decide) (by decide) hdup (by decide)
  have hdata : data = [["1"], ["2"]] := by
    have hv : npTranspose [["1", "2"]] = .ok [["1"], ["2"]] := by decide
    rw [hv] at hnp
    exact Except.ok.inj hnp.symm
  subst hdata
  refine ⟨by decide, hdup, by decide, hlt, ?_⟩
  rw [hlk "H"]
  decide
